import Mathlib

/-!
Verification of the indicator-computation core of a stock-analysis
application (`stock_investment_app.py`).

The core operates on a pandas DataFrame holding a date-indexed price
series; the indicator stages attach new named columns.  We shallow-embed
the DataFrame as a `Frame`: a record of named, date-aligned columns.
Numeric cells are modelled over `ℚ`; the floating-point special values
that actually arise in this code (NaN from `diff` at index zero, NaN from
an insufficient rolling window, 0/0 and x/0 in the RSI ratio, NaN
comparison semantics in the signal masks) are modelled explicitly with
`Option ℚ` (`none` = NaN/undefined) and explicit case splits, matching
pandas behaviour at each such point.
-/

namespace StockApp

/-- Embedding of `series.rolling(window=w).mean()` applied to a fully
defined numeric series: entry `i` is NaN (`none`) while fewer than `w`
points are available, and otherwise the arithmetic mean of the `w`-point
window ending at `i` (pandas default `min_periods = window`). -/
def rollingMean (w : ℕ) (xs : List ℚ) : List (Option ℚ) :=
  (List.range xs.length).map fun i =>
    if i + 1 < w then none else some (((xs.drop (i + 1 - w)).take w).sum / w)

/-- Helper for `diff`: successive differences against the previous value. -/
def diffAux (p : ℚ) : List ℚ → List (Option ℚ)
  | [] => []
  | x :: xs => some (x - p) :: diffAux x xs

/-- Embedding of `series.diff()`: NaN at index 0, `x[i] - x[i-1]` after. -/
def diff : List ℚ → List (Option ℚ)
  | [] => []
  | x :: xs => none :: diffAux x xs

/-- Embedding of one cell of `delta.where(delta > 0, 0)`: pandas keeps the
value where the condition holds and writes 0 elsewhere; a NaN delta
compares as not-greater, so it is also replaced by 0. -/
def gainCell : Option ℚ → ℚ
  | some d => if 0 < d then d else 0
  | none => 0

/-- Embedding of one cell of `-delta.where(delta < 0, 0)` (negation of the
kept negative delta, 0 elsewhere, NaN replaced by 0 before negation). -/
def lossCell : Option ℚ → ℚ
  | some d => if d < 0 then -d else 0
  | none => 0

/-- The `gain` series of `calculate_rsi` before averaging. -/
def gains (close : List ℚ) : List ℚ := (diff close).map gainCell

/-- The `loss` series of `calculate_rsi` before averaging. -/
def losses (close : List ℚ) : List ℚ := (diff close).map lossCell

/-- One defined cell of `100 - 100/(1 + gain/loss)` under IEEE semantics
for the nonnegative averages this code produces: `0/0` is NaN (`none`),
`g/0` with `g > 0` is `+inf` and the expression saturates to `100`, and a
finite ratio gives the exact rational value. -/
def rsCell (g l : ℚ) : Option ℚ :=
  if l = 0 then (if g = 0 then none else some 100) else some (100 - 100 / (1 + g / l))

/-- Combine one cell of the averaged gain and loss columns: NaN (an
unfilled window) propagates, otherwise `rsCell`. -/
def rsiPoint : Option ℚ → Option ℚ → Option ℚ
  | some g, some l => rsCell g l
  | _, _ => none

/-- The full RSI column of `calculate_rsi` as a function of the close
column. -/
def rsiCol (w : ℕ) (close : List ℚ) : List (Option ℚ) :=
  List.zipWith rsiPoint (rollingMean w (gains close)) (rollingMean w (losses close))

/-- Helper of `ewm`: the recurrence `y[t] = (1-a)*y[t-1] + a*x[t]`. -/
def ewmFrom (a : ℚ) (prev : ℚ) : List ℚ → List ℚ
  | [] => []
  | x :: xs =>
    let y := (1 - a) * prev + a * x
    y :: ewmFrom a y xs

/-- Embedding of `series.ewm(span=s, adjust=False).mean()`: smoothing
factor `2/(span+1)`, seeded at the first data point. -/
def ewm (span : ℕ) : List ℚ → List ℚ
  | [] => []
  | x :: xs => x :: ewmFrom (2 / (span + 1)) x xs

/-- Embedding of the pandas comparison mask `a > b` on one pair of cells:
any comparison involving NaN is False. -/
def cmpGT : Option ℚ → Option ℚ → Bool
  | some a, some b => decide (b < a)
  | _, _ => false

/-- Embedding of the pandas comparison mask `a <= b` on one pair of cells:
any comparison involving NaN is False. -/
def cmpLE : Option ℚ → Option ℚ → Bool
  | some a, some b => decide (a ≤ b)
  | _, _ => false

/-- One cell of the `Signal` column of `identify_signals`: the column is
initialised to 0, the mask `Short_MA > Long_MA` then writes 1, and the
mask `Short_MA <= Long_MA` (applied last) writes -1.  A row where either
moving average is NaN fails both masks and keeps the initial 0. -/
def sigCell (a b : Option ℚ) : ℤ :=
  if cmpLE a b then -1 else if cmpGT a b then 1 else 0

/-- The date-indexed DataFrame of the application, embedded as named,
date-aligned columns.  `Close` is the ingested price column (fully
defined); each derived column is `none` until its stage has run. -/
structure Frame where
  dates : List ℕ
  Close : List ℚ
  Short_MA : Option (List (Option ℚ))
  Long_MA : Option (List (Option ℚ))
  RSI : Option (List (Option ℚ))
  MACD : Option (List (Option ℚ))
  Signal_Line : Option (List (Option ℚ))
  Signal : Option (List ℤ)
deriving DecidableEq

/-- Embedding of `calculate_moving_averages(data, short_window, long_window)`. -/
def calculate_moving_averages (short_window long_window : ℕ) (f : Frame) : Frame :=
  { f with
    Short_MA := some (rollingMean short_window f.Close)
    Long_MA := some (rollingMean long_window f.Close) }

/-- Embedding of `calculate_rsi(data, window)`.  Total: pandas arithmetic
on series never raises here; undefined results are NaN cells. -/
def calculate_rsi (window : ℕ) (f : Frame) : Frame :=
  { f with RSI := some (rsiCol window f.Close) }

/-- Embedding of `calculate_macd(data, short_window, long_window,
signal_window)`: `MACD = ewm(close, short) - ewm(close, long)` pointwise,
`Signal_Line = ewm(MACD, signal_window)`; every cell is defined, so the
stored cells are all `some`. -/
def calculate_macd (short_window long_window signal_window : ℕ) (f : Frame) : Frame :=
  let m := List.zipWith (fun a b => a - b) (ewm short_window f.Close) (ewm long_window f.Close)
  { f with
    MACD := some (m.map some)
    Signal_Line := some ((ewm signal_window m).map some) }

/-- Embedding of `identify_signals(data)`.  Accessing a missing column
raises `KeyError` in pandas; the first access that can fail is
`data[Short_MA]` in the first mask, then `data[Long_MA]`.  The raised
exception is modelled as `Except.error`. -/
def identify_signals (f : Frame) : Except String Frame :=
  match f.Short_MA with
  | none => .error "KeyError Short_MA"
  | some s =>
    match f.Long_MA with
    | none => .error "KeyError Long_MA"
    | some l => .ok { f with Signal := some (List.zipWith sigCell s l) }

/-- The recommendation shown by the presentation layer from the last-row
signal value: 1 is BUY, -1 is SELL, anything else falls to HOLD. -/
inductive Advice where
  | buy
  | sell
  | hold
deriving DecidableEq

/-- The `if last_signal == 1 / elif last_signal == -1 / else` chain. -/
def recommendation (s : ℤ) : Advice :=
  if s = 1 then Advice.buy else if s = -1 then Advice.sell else Advice.hold

/-- The `Signal` column of the frame produced by a (possibly failing) run
of `identify_signals`; `none` when the call failed or never wrote it. -/
def signalOf : Except String Frame → Option (List ℤ)
  | .ok g => g.Signal
  | .error _ => none

/-- Whether the embedded stage call raised. -/
def isError : Except String Frame → Bool
  | .error _ => true
  | .ok _ => false

section Lemmas

theorem rollingMean_length (w : ℕ) (xs : List ℚ) :
    (rollingMean w xs).length = xs.length := by
  simp [rollingMean]

theorem rollingMean_getElem (w : ℕ) (xs : List ℚ) (i : ℕ)
    (h : i < (rollingMean w xs).length) :
    (rollingMean w xs)[i] =
      if i + 1 < w then none else some (((xs.drop (i + 1 - w)).take w).sum / w) := by
  simp [rollingMean]

theorem rollingMean_getD (w : ℕ) (xs : List ℚ) (i : ℕ) (h : i < xs.length) (d : Option ℚ) :
    (rollingMean w xs).getD i d =
      if i + 1 < w then none else some (((xs.drop (i + 1 - w)).take w).sum / w) := by
  have hlen : i < (rollingMean w xs).length := by
    rw [rollingMean_length]; exact h
  rw [List.getD_eq_getElem _ _ hlen, rollingMean_getElem]

theorem diffAux_length (p : ℚ) (xs : List ℚ) : (diffAux p xs).length = xs.length := by
  induction xs generalizing p with
  | nil => rfl
  | cons x xs ih => simp [diffAux, ih]

theorem diff_length (xs : List ℚ) : (diff xs).length = xs.length := by
  cases xs with
  | nil => rfl
  | cons x xs => simp [diff, diffAux_length]

theorem gains_length (xs : List ℚ) : (gains xs).length = xs.length := by
  simp [gains, diff_length]

theorem losses_length (xs : List ℚ) : (losses xs).length = xs.length := by
  simp [losses, diff_length]

theorem rsiCol_length (w : ℕ) (xs : List ℚ) : (rsiCol w xs).length = xs.length := by
  simp [rsiCol, rollingMean_length, gains_length, losses_length]

theorem ewmFrom_length (a p : ℚ) (xs : List ℚ) : (ewmFrom a p xs).length = xs.length := by
  induction xs generalizing p with
  | nil => rfl
  | cons x xs ih => simp [ewmFrom, ih]

theorem ewm_length (s : ℕ) (xs : List ℚ) : (ewm s xs).length = xs.length := by
  cases xs with
  | nil => rfl
  | cons x xs => simp [ewm, ewmFrom_length]

theorem ewmFrom_const (a c : ℚ) : ∀ n, ewmFrom a c (List.replicate n c) = List.replicate n c
  | 0 => rfl
  | n + 1 => by
    have hy : (1 - a) * c + a * c = c := by ring
    simp only [List.replicate_succ, ewmFrom, hy]
    exact congrArg (c :: ·) (ewmFrom_const a c n)

theorem zipWith_getD {α β γ : Type} (F : α → β → γ) (as : List α) (bs : List β)
    (i : ℕ) (h1 : i < as.length) (h2 : i < bs.length) (d : γ) (da : α) (db : β) :
    (List.zipWith F as bs).getD i d = F (as.getD i da) (bs.getD i db) := by
  have hz : i < (List.zipWith F as bs).length := by
    rw [List.length_zipWith]; exact lt_min h1 h2
  rw [List.getD_eq_getElem _ _ hz, List.getD_eq_getElem _ _ h1, List.getD_eq_getElem _ _ h2,
    List.getElem_zipWith]

theorem lt_length_of_getD_ne {α : Type} (l : List α) (i : ℕ) (d : α)
    (h : l.getD i d ≠ d) : i < l.length := by
  by_contra hh
  push_neg at hh
  exact h (List.getD_eq_default l d hh)

theorem take_drop_window (w i : ℕ) (hw : w ≤ i + 1) (xs : List ℚ) :
    (xs.take (i + 1)).drop (i + 1 - w) = (xs.drop (i + 1 - w)).take w := by
  rw [List.drop_take]
  congr 1
  omega

theorem rollingMean_spec (w : ℕ) (xs : List ℚ) :
    (rollingMean w xs).length = xs.length ∧
    (∀ i, i < xs.length → i + 1 < w → (rollingMean w xs).getD i (some 0) = none) ∧
    (∀ i, i < xs.length → w ≤ i + 1 →
      (rollingMean w xs).getD i none = some (((xs.take (i + 1)).drop (i + 1 - w)).sum / w)) := by
  refine ⟨rollingMean_length w xs, ?_, ?_⟩
  · intro i hi hlt
    have h := rollingMean_getD w xs i hi (some 0)
    rw [if_pos hlt] at h
    exact h
  · intro i hi hge
    have h := rollingMean_getD w xs i hi none
    rw [if_neg (by omega)] at h
    rw [h, take_drop_window w i hge]

end Lemmas

/-- Concrete frames used to witness and refute claims. -/
def frameA : Frame := ⟨[0, 1, 2], [1, 3, 5], none, none, none, none, none, none⟩

/-- Two-row frame whose series is shorter than the long window. -/
def frameB : Frame := ⟨[0, 1], [1, 3], none, none, none, none, none, none⟩

/-- Constant-close frame (RSI indeterminate case). -/
def frameC : Frame := ⟨[0, 1, 2], [5, 5, 5], none, none, none, none, none, none⟩

/-- Empty frame with no derived columns. -/
def frameE : Frame := ⟨[], [], none, none, none, none, none, none⟩

/-- Frame with hand-written moving-average columns, one undefined cell each. -/
def frameW : Frame :=
  ⟨[0, 1], [1, 2], some [some 1, none], some [some 0, some 2], none, none, none, none⟩

/-- Strictly increasing close series (RSI saturation case). -/
def frameI : Frame := ⟨[0, 1, 2, 3], [1, 2, 3, 4], none, none, none, none, none, none⟩

/-- C5 (confirmed): for every window w ≥ 1 and close series of length n,
the moving-average columns produced by `calculate_moving_averages` are
aligned with the series, undefined at exactly the first w-1 dates, and at
every date i with i+1 ≥ w equal to the arithmetic mean of the window
`close[i-w+1 .. i]`; a series shorter than the window yields an entirely
undefined column and no error. -/
theorem ma_columns_spec (sw lw : ℕ) (hsw : 1 ≤ sw) (hlw : 1 ≤ lw) (f : Frame) :
    (((calculate_moving_averages sw lw f).Short_MA.getD []).length = f.Close.length ∧
      (∀ i, i < f.Close.length → i + 1 < sw →
        ((calculate_moving_averages sw lw f).Short_MA.getD []).getD i (some 0) = none) ∧
      (∀ i, i < f.Close.length → sw ≤ i + 1 →
        ((calculate_moving_averages sw lw f).Short_MA.getD []).getD i none =
          some (((f.Close.take (i + 1)).drop (i + 1 - sw)).sum / sw))) ∧
    (((calculate_moving_averages sw lw f).Long_MA.getD []).length = f.Close.length ∧
      (∀ i, i < f.Close.length → i + 1 < lw →
        ((calculate_moving_averages sw lw f).Long_MA.getD []).getD i (some 0) = none) ∧
      (∀ i, i < f.Close.length → lw ≤ i + 1 →
        ((calculate_moving_averages sw lw f).Long_MA.getD []).getD i none =
          some (((f.Close.take (i + 1)).drop (i + 1 - lw)).sum / lw))) := by
  have hS : (calculate_moving_averages sw lw f).Short_MA = some (rollingMean sw f.Close) := rfl
  have hL : (calculate_moving_averages sw lw f).Long_MA = some (rollingMean lw f.Close) := rfl
  rw [hS, hL]
  exact ⟨rollingMean_spec sw f.Close, rollingMean_spec lw f.Close⟩

/-- Witness for C5 at window 2 over the series [1, 3, 5]: the first entry
is undefined and the second equals (1+3)/2 = 2. -/
theorem ma_columns_spec_witness :
    ((calculate_moving_averages 2 3 frameA).Short_MA.getD []).getD 0 (some 0) = none ∧
    ((calculate_moving_averages 2 3 frameA).Short_MA.getD []).getD 1 none = some 2 := by
  have h := ma_columns_spec 2 3 (by norm_num) (by norm_num) frameA
  refine ⟨h.1.2.1 0 (by norm_num [frameA]) (by norm_num), ?_⟩
  have h2 := h.1.2.2 1 (by norm_num [frameA]) (by norm_num)
  rw [h2]
  norm_num [frameA]

/-- C8 (confirmed): the exponential moving average with smoothing factor
2/(span+1), seeded at the first data point, maps every constant series to
itself. -/
theorem ewm_constant_fixed_point (span n : ℕ) (c : ℚ) :
    ewm span (List.replicate n c) = List.replicate n c := by
  cases n with
  | zero => rfl
  | succ m => simp [List.replicate_succ, ewm, ewmFrom_const]

/-- C9 (confirmed): the RSI stage and the MACD stage commute, and the
column either one computes does not change when the moving-average stage
has run first: each reads only the close column and writes only its own
columns. -/
theorem rsi_macd_stage_commutation (w sw lw gw a b : ℕ) (f : Frame) :
    calculate_rsi w (calculate_macd sw lw gw f) =
      calculate_macd sw lw gw (calculate_rsi w f) ∧
    (calculate_rsi w (calculate_moving_averages a b f)).RSI = (calculate_rsi w f).RSI ∧
    (calculate_macd sw lw gw (calculate_moving_averages a b f)).MACD =
      (calculate_macd sw lw gw f).MACD ∧
    (calculate_macd sw lw gw (calculate_moving_averages a b f)).Signal_Line =
      (calculate_macd sw lw gw f).Signal_Line :=
  ⟨rfl, rfl, rfl, rfl⟩

/-- C3 (confirmed): running the signal stage on a frame that lacks the
Short_MA or Long_MA column surfaces the precondition failure immediately
as a raised error, and no signal column is produced. -/
theorem signal_stage_precondition (f : Frame)
    (h : f.Short_MA = none ∨ f.Long_MA = none) :
    isError (identify_signals f) = true ∧ signalOf (identify_signals f) = none := by
  rcases h with h | h
  · simp [identify_signals, h, isError, signalOf]
  · cases hS : f.Short_MA <;> simp [identify_signals, hS, h, isError, signalOf]

/-- Witness for C3 on the empty frame with no derived columns. -/
theorem signal_stage_precondition_witness :
    isError (identify_signals frameE) = true ∧ signalOf (identify_signals frameE) = none :=
  signal_stage_precondition frameE (Or.inl rfl)

/-- C2 (confirmed): at every index where both the averaged gain and the
averaged loss are zero, the RSI cell is undefined (the 0/0 indeterminate
form), and the stage still returns a full-length column rather than
raising. -/
theorem rsi_indeterminate_undefined (w : ℕ) (f : Frame) (i : ℕ)
    (hg : (rollingMean w (gains f.Close)).getD i none = some 0)
    (hl : (rollingMean w (losses f.Close)).getD i none = some 0) :
    ((calculate_rsi w f).RSI.getD []).length = f.Close.length ∧
    ((calculate_rsi w f).RSI.getD []).getD i (some 0) = none := by
  have hR : (calculate_rsi w f).RSI = some (rsiCol w f.Close) := rfl
  rw [hR, Option.getD_some]
  refine ⟨rsiCol_length w f.Close, ?_⟩
  have h1 : i < (rollingMean w (gains f.Close)).length :=
    lt_length_of_getD_ne _ _ _ (by rw [hg]; exact fun hc => Option.noConfusion hc)
  have h2 : i < (rollingMean w (losses f.Close)).length :=
    lt_length_of_getD_ne _ _ _ (by rw [hl]; exact fun hc => Option.noConfusion hc)
  have hz := zipWith_getD rsiPoint (rollingMean w (gains f.Close))
    (rollingMean w (losses f.Close)) i h1 h2 (some 0) none none
  rw [rsiCol, hz, hg, hl]
  simp [rsiPoint, rsCell]

/-- Witness for C2: constant series [5, 5, 5] with window 2 at index 2. -/
theorem rsi_indeterminate_undefined_witness :
    ((calculate_rsi 2 frameC).RSI.getD []).getD 2 (some 0) = none := by
  have h := rsi_indeterminate_undefined 2 frameC 2
    (by norm_num [frameC, gains, diff, diffAux, gainCell, rollingMean, List.range_succ])
    (by norm_num [frameC, losses, diff, diffAux, lossCell, rollingMean, List.range_succ])
  exact h.2

theorem map_some_getD (l : List ℚ) (i : ℕ) (h : i < l.length) :
    (l.map some).getD i none = some (l.getD i 0) := by
  have hm : i < (l.map some).length := by simpa using h
  rw [List.getD_eq_getElem _ _ hm, List.getD_eq_getElem _ _ h, List.getElem_map]

/-- C7 (confirmed): the MACD stage has no undefined head: for a non-empty
close series both the macd and signal-line columns are full length with
every cell defined, and the first macd value is close[0] - close[0] = 0
because both exponential averages are seeded at the first data point. -/
theorem macd_defined_from_start (sw lw gw : ℕ) (f : Frame) (hne : f.Close ≠ []) :
    ((calculate_macd sw lw gw f).MACD.getD []).length = f.Close.length ∧
    ((calculate_macd sw lw gw f).Signal_Line.getD []).length = f.Close.length ∧
    (∀ i, i < f.Close.length →
      (((calculate_macd sw lw gw f).MACD.getD []).getD i none).isSome = true) ∧
    (∀ i, i < f.Close.length →
      (((calculate_macd sw lw gw f).Signal_Line.getD []).getD i none).isSome = true) ∧
    ((calculate_macd sw lw gw f).MACD.getD []).getD 0 none = some 0 := by
  have hm : (List.zipWith (fun a b => a - b) (ewm sw f.Close) (ewm lw f.Close)).length =
      f.Close.length := by
    rw [List.length_zipWith, ewm_length, ewm_length, min_self]
  have hM : (calculate_macd sw lw gw f).MACD =
      some ((List.zipWith (fun a b => a - b) (ewm sw f.Close) (ewm lw f.Close)).map some) := rfl
  have hS : (calculate_macd sw lw gw f).Signal_Line =
      some ((ewm gw (List.zipWith (fun a b => a - b) (ewm sw f.Close) (ewm lw f.Close))).map
        some) := rfl
  rw [hM, hS, Option.getD_some, Option.getD_some]
  have hn0 : 0 < f.Close.length := List.length_pos.2 hne
  refine ⟨by simpa using hm, by simp [ewm_length, hm], ?_, ?_, ?_⟩
  · intro i hi
    rw [map_some_getD _ i (by rw [hm]; exact hi)]
    rfl
  · intro i hi
    rw [map_some_getD _ i (by rw [ewm_length, hm]; exact hi)]
    rfl
  · rw [map_some_getD _ 0 (by rw [hm]; exact hn0)]
    obtain ⟨c, rest, hc⟩ := List.exists_cons_of_ne_nil hne
    rw [hc]
    simp [ewm, sub_self]

/-- Witness for C7 on the two-point series [1, 3]. -/
theorem macd_defined_from_start_witness :
    ((calculate_macd 12 26 9 frameB).MACD.getD []).getD 0 none = some 0 := by
  have h := macd_defined_from_start 12 26 9 frameB (by simp [frameB])
  exact h.2.2.2.2

/-- C1 counterexample: on close = [1, 3, 5] with windows 2 and 3, the
short moving average is undefined at date 0, yet the produced signal
there is the untouched initialisation value 0, not the -1 the claim
requires for dates with an undefined moving average. -/
theorem signal_undefined_not_minus_one :
    ((calculate_moving_averages 2 3 frameA).Short_MA.getD []).getD 0 (some 0) = none ∧
    (signalOf (identify_signals (calculate_moving_averages 2 3 frameA))).getD [] = [0, 0, 1] ∧
    ¬ ((signalOf (identify_signals (calculate_moving_averages 2 3 frameA))).getD []).getD 0 1
        = -1 := by
  refine ⟨?_, ?_, ?_⟩ <;>
    norm_num [frameA, calculate_moving_averages, rollingMean, List.range_succ,
      identify_signals, signalOf, sigCell, cmpLE, cmpGT]

/-- C1 as amended (proved): where both moving averages are defined the
signal is +1 if short > long and -1 otherwise; where either moving
average is undefined both comparison masks are false and the signal keeps
its initialisation value 0 - not -1. -/
theorem signal_rule_amended (f : Frame) (s l : List (Option ℚ))
    (hs : f.Short_MA = some s) (hl : f.Long_MA = some l) :
    signalOf (identify_signals f) = some (List.zipWith sigCell s l) ∧
    (∀ i a b, s.getD i none = some a → l.getD i none = some b →
      (List.zipWith sigCell s l).getD i 0 = if b < a then 1 else -1) ∧
    (∀ i, i < s.length → i < l.length →
      (s.getD i none = none ∨ l.getD i none = none) →
      (List.zipWith sigCell s l).getD i 1 = 0) := by
  refine ⟨by simp [identify_signals, hs, hl, signalOf], ?_, ?_⟩
  · intro i a b ha hb
    have h1 : i < s.length :=
      lt_length_of_getD_ne s i none (by rw [ha]; exact fun hc => Option.noConfusion hc)
    have h2 : i < l.length :=
      lt_length_of_getD_ne l i none (by rw [hb]; exact fun hc => Option.noConfusion hc)
    rw [zipWith_getD sigCell s l i h1 h2 0 none none, ha, hb]
    rcases le_or_lt a b with hab | hba
    · rw [if_neg (not_lt.2 hab)]
      simp [sigCell, cmpLE, cmpGT, hab]
    · rw [if_pos hba]
      simp [sigCell, cmpLE, cmpGT, hba, not_le.2 hba]
  · intro i hi1 hi2 hor
    rw [zipWith_getD sigCell s l i hi1 hi2 1 none none]
    cases hsv : s.getD i none with
    | none => simp [sigCell, cmpLE, cmpGT]
    | some a =>
      cases hlv : l.getD i none with
      | none => simp [sigCell, cmpLE, cmpGT]
      | some b =>
        rcases hor with h0 | h0
        · rw [hsv] at h0; exact Option.noConfusion h0
        · rw [hlv] at h0; exact Option.noConfusion h0

/-- Witness for the amended C1 on hand-written columns: short > long at
date 0 gives +1, an undefined short at date 1 gives 0. -/
theorem signal_rule_amended_witness :
    signalOf (identify_signals frameW) = some [1, 0] := by
  have h := (signal_rule_amended frameW [some 1, none] [some 0, some 2] rfl rfl).1
  rw [h]
  norm_num [sigCell, cmpLE, cmpGT]

/-- C4 counterexample: on the two-row series [1, 3] with windows 2 and 3
the long moving average never becomes defined, the signal column is
[0, 0] - a value outside {+1, -1} at every date - and the last-row
recommendation is the supposedly unreachable HOLD branch. -/
theorem signal_zero_reachable :
    (signalOf (identify_signals (calculate_moving_averages 2 3 frameB))).getD [] = [0, 0] ∧
    ¬ (((signalOf (identify_signals (calculate_moving_averages 2 3 frameB))).getD []).getD 1 5
          = 1 ∨
        ((signalOf (identify_signals (calculate_moving_averages 2 3 frameB))).getD []).getD 1 5
          = -1) ∧
    recommendation
        (((signalOf (identify_signals (calculate_moving_averages 2 3 frameB))).getD []).getD 1 5)
      = Advice.hold := by
  refine ⟨?_, ?_, ?_⟩ <;>
    norm_num [frameB, calculate_moving_averages, rollingMean, List.range_succ,
      identify_signals, signalOf, sigCell, cmpLE, cmpGT, recommendation]

/-- C4 as amended (proved): the signal column takes values in
{+1, -1, 0}; it is in {+1, -1} exactly at the dates where both moving
averages are defined, and the HOLD recommendation fires exactly at dates
where one of them is undefined - so HOLD is reachable whenever the last
row lies inside the undefined moving-average head. -/
theorem signal_domain_amended (f : Frame) (s l : List (Option ℚ))
    (hs : f.Short_MA = some s) (hl : f.Long_MA = some l)
    (i : ℕ) (h1 : i < s.length) (h2 : i < l.length) :
    (((signalOf (identify_signals f)).getD []).getD i 5 = 1 ∨
      ((signalOf (identify_signals f)).getD []).getD i 5 = -1 ∨
      ((signalOf (identify_signals f)).getD []).getD i 5 = 0) ∧
    ((((signalOf (identify_signals f)).getD []).getD i 5 = 1 ∨
        ((signalOf (identify_signals f)).getD []).getD i 5 = -1) ↔
      ((s.getD i none).isSome = true ∧ (l.getD i none).isSome = true)) ∧
    (recommendation (((signalOf (identify_signals f)).getD []).getD i 5) = Advice.hold ↔
      ¬ ((s.getD i none).isSome = true ∧ (l.getD i none).isSome = true)) := by
  have hsig : signalOf (identify_signals f) = some (List.zipWith sigCell s l) := by
    simp [identify_signals, hs, hl, signalOf]
  rw [hsig, Option.getD_some, zipWith_getD sigCell s l i h1 h2 5 none none]
  cases hsv : s.getD i none with
  | none => simp [sigCell, cmpLE, cmpGT, recommendation]
  | some a =>
    cases hlv : l.getD i none with
    | none => simp [sigCell, cmpLE, cmpGT, recommendation]
    | some b =>
      rcases le_or_lt a b with hab | hba
      · simp [sigCell, cmpLE, cmpGT, hab, recommendation]
      · simp [sigCell, cmpLE, cmpGT, hba, not_le.2 hba, recommendation]

/-- Witness for the amended C4 at date 1 of hand-written columns with an
undefined short moving average: the signal is 0 and HOLD fires. -/
theorem signal_domain_amended_witness :
    (((signalOf (identify_signals frameW)).getD []).getD 1 5 = 1 ∨
      ((signalOf (identify_signals frameW)).getD []).getD 1 5 = -1 ∨
      ((signalOf (identify_signals frameW)).getD []).getD 1 5 = 0) ∧
    ((((signalOf (identify_signals frameW)).getD []).getD 1 5 = 1 ∨
        ((signalOf (identify_signals frameW)).getD []).getD 1 5 = -1) ↔
      (([some (1:ℚ), none].getD 1 none).isSome = true ∧
        (([some (0:ℚ), some 2].getD 1 none)).isSome = true)) ∧
    (recommendation (((signalOf (identify_signals frameW)).getD []).getD 1 5) = Advice.hold ↔
      ¬ (([some (1:ℚ), none].getD 1 none).isSome = true ∧
        (([some (0:ℚ), some 2].getD 1 none)).isSome = true)) :=
  signal_domain_amended frameW [some 1, none] [some 0, some 2] rfl rfl 1
    (by norm_num) (by norm_num)

theorem gainCell_nonneg (o : Option ℚ) : 0 ≤ gainCell o := by
  cases o with
  | none => simp [gainCell]
  | some d =>
    dsimp [gainCell]
    split_ifs with h
    · exact le_of_lt h
    · exact le_refl 0

theorem lossCell_nonneg (o : Option ℚ) : 0 ≤ lossCell o := by
  cases o with
  | none => simp [lossCell]
  | some d =>
    dsimp [lossCell]
    split_ifs with h
    · linarith
    · exact le_refl 0

theorem gains_nonneg (xs : List ℚ) : ∀ x ∈ gains xs, 0 ≤ x := by
  intro x hx
  obtain ⟨o, _, rfl⟩ := List.mem_map.1 hx
  exact gainCell_nonneg o

theorem losses_nonneg (xs : List ℚ) : ∀ x ∈ losses xs, 0 ≤ x := by
  intro x hx
  obtain ⟨o, _, rfl⟩ := List.mem_map.1 hx
  exact lossCell_nonneg o

theorem diffAux_pos_of_chain (c : ℚ) (rest : List ℚ)
    (hch : List.Chain (· < ·) c rest) :
    ∀ o ∈ diffAux c rest, ∃ d, o = some d ∧ 0 < d := by
  induction rest generalizing c with
  | nil => intro o ho; simp [diffAux] at ho
  | cons r rs ih =>
    rw [List.chain_cons] at hch
    intro o ho
    rcases List.mem_cons.1 ho with rfl | ho
    · exact ⟨r - c, rfl, by linarith [hch.1]⟩
    · exact ih r hch.2 o ho

theorem losses_eq_zero_of_chain (c : ℚ) (rest : List ℚ)
    (hch : List.Chain (· < ·) c rest) :
    ∀ x ∈ losses (c :: rest), x = 0 := by
  intro x hx
  obtain ⟨o, ho, rfl⟩ := List.mem_map.1 hx
  rcases List.mem_cons.1 ho with rfl | ho
  · rfl
  · obtain ⟨d, rfl, hd⟩ := diffAux_pos_of_chain c rest hch o ho
    dsimp [lossCell]
    rw [if_neg (by linarith)]

theorem gains_tail_pos_of_chain (c : ℚ) (rest : List ℚ)
    (hch : List.Chain (· < ·) c rest) :
    ∀ x ∈ (diffAux c rest).map gainCell, 0 < x := by
  intro x hx
  obtain ⟨o, ho, rfl⟩ := List.mem_map.1 hx
  obtain ⟨d, rfl, hd⟩ := diffAux_pos_of_chain c rest hch o ho
  dsimp [gainCell]
  rw [if_pos hd]
  exact hd

theorem rsiPoint_none_left (x : Option ℚ) : rsiPoint none x = none := by
  cases x <;> rfl

theorem rsiPoint_some (g l : ℚ) : rsiPoint (some g) (some l) = rsCell g l := rfl

theorem rsCell_bounds (g l : ℚ) (hg : 0 ≤ g) (hl : 0 ≤ l) (v : ℚ)
    (h : rsCell g l = some v) : 0 ≤ v ∧ v ≤ 100 := by
  unfold rsCell at h
  by_cases h0 : l = 0
  · rw [if_pos h0] at h
    by_cases h1 : g = 0
    · rw [if_pos h1] at h
      exact Option.noConfusion h
    · rw [if_neg h1] at h
      have hv : (100 : ℚ) = v := Option.some.inj h
      constructor <;> linarith
  · rw [if_neg h0] at h
    have hv : 100 - 100 / (1 + g / l) = v := Option.some.inj h
    have hgl : 0 ≤ g / l := div_nonneg hg hl
    have hdivpos : 0 < 100 / (1 + g / l) := div_pos (by norm_num) (by linarith)
    have hdivle : 100 / (1 + g / l) ≤ 100 := div_le_self (by norm_num) (by linarith)
    constructor <;> linarith

/-- C6 (confirmed): every defined RSI cell lies in [0, 100]; and on a
strictly increasing close series the average loss is zero and the average
gain positive at every date from the window index on, so the RSI
saturates to exactly 100 at and after index w. -/
theorem rsi_bounded_and_saturating (w : ℕ) (hw : 1 ≤ w) (f : Frame) :
    (∀ i v, ((calculate_rsi w f).RSI.getD []).getD i none = some v →
      0 ≤ v ∧ v ≤ 100) ∧
    (List.Chain' (· < ·) f.Close → ∀ i, w ≤ i → i < f.Close.length →
      ((calculate_rsi w f).RSI.getD []).getD i none = some 100) := by
  have hR : (calculate_rsi w f).RSI = some (rsiCol w f.Close) := rfl
  rw [hR, Option.getD_some]
  constructor
  · intro i v hv
    have hi : i < (rsiCol w f.Close).length :=
      lt_length_of_getD_ne _ _ _ (by rw [hv]; exact fun hc => Option.noConfusion hc)
    rw [rsiCol_length] at hi
    have h1 : i < (rollingMean w (gains f.Close)).length := by
      rw [rollingMean_length, gains_length]; exact hi
    have h2 : i < (rollingMean w (losses f.Close)).length := by
      rw [rollingMean_length, losses_length]; exact hi
    rw [rsiCol, zipWith_getD rsiPoint _ _ i h1 h2 none none none] at hv
    have hG := rollingMean_getD w (gains f.Close) i (by rw [gains_length]; exact hi) none
    have hL := rollingMean_getD w (losses f.Close) i (by rw [losses_length]; exact hi) none
    by_cases hlt : i + 1 < w
    · rw [if_pos hlt] at hG
      rw [hG, rsiPoint_none_left] at hv
      exact Option.noConfusion hv
    · rw [if_neg hlt] at hG
      rw [if_neg hlt] at hL
      rw [hG, hL, rsiPoint_some] at hv
      have hg : 0 ≤ (((gains f.Close).drop (i + 1 - w)).take w).sum / w := by
        apply div_nonneg
        · exact List.sum_nonneg fun x hx =>
            gains_nonneg f.Close x (List.drop_subset _ _ (List.take_subset _ _ hx))
        · positivity
      have hlo : 0 ≤ (((losses f.Close).drop (i + 1 - w)).take w).sum / w := by
        apply div_nonneg
        · exact List.sum_nonneg fun x hx =>
            losses_nonneg f.Close x (List.drop_subset _ _ (List.take_subset _ _ hx))
        · positivity
      exact rsCell_bounds _ _ hg hlo v hv
  · intro hch i hwi hin
    obtain ⟨c, rest, hc⟩ := List.exists_cons_of_ne_nil
      (List.length_pos.1 (lt_of_le_of_lt (Nat.zero_le i) hin))
    have hchain : List.Chain (· < ·) c rest := by rw [hc] at hch; exact hch
    have h1 : i < (rollingMean w (gains f.Close)).length := by
      rw [rollingMean_length, gains_length]; exact hin
    have h2 : i < (rollingMean w (losses f.Close)).length := by
      rw [rollingMean_length, losses_length]; exact hin
    rw [rsiCol, zipWith_getD rsiPoint _ _ i h1 h2 none none none]
    have hG := rollingMean_getD w (gains f.Close) i (by rw [gains_length]; exact hin) none
    have hL := rollingMean_getD w (losses f.Close) i (by rw [losses_length]; exact hin) none
    have hnlt : ¬ i + 1 < w := by omega
    rw [if_neg hnlt] at hG
    rw [if_neg hnlt] at hL
    rw [hG, hL]
    have hLsum : (((losses f.Close).drop (i + 1 - w)).take w).sum = 0 := by
      apply List.sum_eq_zero
      intro x hx
      have hxl : x ∈ losses f.Close := List.drop_subset _ _ (List.take_subset _ _ hx)
      rw [hc] at hxl
      exact losses_eq_zero_of_chain c rest hchain x hxl
    have hGpos : 0 < (((gains f.Close).drop (i + 1 - w)).take w).sum := by
      have htail : (gains f.Close).drop (i + 1 - w) =
          ((diffAux c rest).map gainCell).drop (i - w) := by
        have hsplit : i + 1 - w = (i - w) + 1 := by omega
        rw [hc, hsplit, gains, diff, List.map_cons, List.drop_succ_cons]
      apply List.sum_pos
      · intro x hx
        rw [htail] at hx
        exact gains_tail_pos_of_chain c rest hchain x
          (List.drop_subset _ _ (List.take_subset _ _ hx))
      · have hlen : (((gains f.Close).drop (i + 1 - w)).take w).length =
            min w ((gains f.Close).length - (i + 1 - w)) := by
          rw [List.length_take, List.length_drop]
        have hgl : (gains f.Close).length = f.Close.length := gains_length f.Close
        apply List.length_pos.1
        rw [hlen, hgl]
        omega
    have hgq : (0 : ℚ) < (((gains f.Close).drop (i + 1 - w)).take w).sum / w := by
      apply div_pos hGpos
      have : (0 : ℕ) < w := by omega
      exact_mod_cast this
    rw [hLsum]
    simp [rsiPoint_some, rsCell, zero_div, ne_of_gt hgq]

/-- Witness for C6 on the strictly increasing series [1, 2, 3, 4] with
window 2 at index 2: the RSI saturates to 100. -/
theorem rsi_bounded_and_saturating_witness :
    ((calculate_rsi 2 frameI).RSI.getD []).getD 2 none = some 100 :=
  (rsi_bounded_and_saturating 2 (by norm_num) frameI).2
    (by norm_num [frameI, List.chain'_cons]) 2 (by norm_num) (by norm_num [frameI])

/-- C10 (confirmed): each stage keeps the dates and every column it does
not own unchanged and adds only its own full-length columns; the signal
stage, run on a frame whose moving-average columns are present and
aligned, succeeds and writes only the full-length signal column. -/
theorem stage_frame_properties (sw lw w msw mlw gw : ℕ) (f : Frame)
    (s l : List (Option ℚ))
    (hs : f.Short_MA = some s) (hl : f.Long_MA = some l)
    (hsn : s.length = f.Close.length) (hln : l.length = f.Close.length) :
    ((calculate_moving_averages sw lw f).dates = f.dates ∧
      (calculate_moving_averages sw lw f).Close = f.Close ∧
      (calculate_moving_averages sw lw f).RSI = f.RSI ∧
      (calculate_moving_averages sw lw f).MACD = f.MACD ∧
      (calculate_moving_averages sw lw f).Signal_Line = f.Signal_Line ∧
      (calculate_moving_averages sw lw f).Signal = f.Signal ∧
      ((calculate_moving_averages sw lw f).Short_MA.getD []).length = f.Close.length ∧
      ((calculate_moving_averages sw lw f).Long_MA.getD []).length = f.Close.length) ∧
    ((calculate_rsi w f).dates = f.dates ∧
      (calculate_rsi w f).Close = f.Close ∧
      (calculate_rsi w f).Short_MA = f.Short_MA ∧
      (calculate_rsi w f).Long_MA = f.Long_MA ∧
      (calculate_rsi w f).MACD = f.MACD ∧
      (calculate_rsi w f).Signal_Line = f.Signal_Line ∧
      (calculate_rsi w f).Signal = f.Signal ∧
      ((calculate_rsi w f).RSI.getD []).length = f.Close.length) ∧
    ((calculate_macd msw mlw gw f).dates = f.dates ∧
      (calculate_macd msw mlw gw f).Close = f.Close ∧
      (calculate_macd msw mlw gw f).Short_MA = f.Short_MA ∧
      (calculate_macd msw mlw gw f).Long_MA = f.Long_MA ∧
      (calculate_macd msw mlw gw f).RSI = f.RSI ∧
      (calculate_macd msw mlw gw f).Signal = f.Signal ∧
      ((calculate_macd msw mlw gw f).MACD.getD []).length = f.Close.length ∧
      ((calculate_macd msw mlw gw f).Signal_Line.getD []).length = f.Close.length) ∧
    (identify_signals f = .ok { f with Signal := some (List.zipWith sigCell s l) } ∧
      (List.zipWith sigCell s l).length = f.Close.length) := by
  have hzip : (List.zipWith (fun a b => a - b) (ewm msw f.Close) (ewm mlw f.Close)).length =
      f.Close.length := by
    rw [List.length_zipWith, ewm_length, ewm_length, min_self]
  have hM : (calculate_macd msw mlw gw f).MACD =
      some ((List.zipWith (fun a b => a - b) (ewm msw f.Close) (ewm mlw f.Close)).map some) :=
    rfl
  have hSL : (calculate_macd msw mlw gw f).Signal_Line =
      some ((ewm gw (List.zipWith (fun a b => a - b) (ewm msw f.Close) (ewm mlw f.Close))).map
        some) := rfl
  refine ⟨⟨rfl, rfl, rfl, rfl, rfl, rfl, rollingMean_length sw f.Close,
      rollingMean_length lw f.Close⟩,
    ⟨rfl, rfl, rfl, rfl, rfl, rfl, rfl, rsiCol_length w f.Close⟩,
    ⟨rfl, rfl, rfl, rfl, rfl, rfl,
      by rw [hM, Option.getD_some, List.length_map]; exact hzip,
      by rw [hSL, Option.getD_some, List.length_map, ewm_length]; exact hzip⟩,
    ?_, ?_⟩
  · simp [identify_signals, hs, hl]
  · rw [List.length_zipWith, hsn, hln, min_self]

/-- Witness for C10: the signal stage on a frame with aligned hand-made
moving-average columns succeeds and only adds the signal column. -/
theorem stage_frame_properties_witness :
    identify_signals frameW =
      Except.ok
        { frameW with Signal := some (List.zipWith sigCell [some 1, none] [some 0, some 2]) } :=
  (stage_frame_properties 1 2 3 4 5 6 frameW [some 1, none] [some 0, some 2]
    rfl rfl rfl rfl).2.2.2.1

end StockApp
